import Mathlib

set_option maxHeartbeats 1000000

/-
Verification development for the kv.rs log-structured key/value store.

The definitions below are a shallow embedding of src/engine.rs,
src/kvs_engine.rs and src/thread_pool/shared_queue_threadpool.rs:
  * the log file is a `List Char` (offsets count characters of the modeled
    text; for the byte-oriented source every record is produced by
    serde_json, and the embedding keeps lengths consistent everywhere);
  * the in-memory HashMap<String, u64> is an association list with
    duplicate-free insert/remove, extensionally equal to the hash map;
  * fallible I/O is `Except KvError`, with the single fallible append
    modeled by an explicit `writeOk` flag;
  * the serde_json codec for `LogEntry` is embedded concretely: the
    encoder emits the compact externally-tagged JSON form with the
    serde_json escape table, and the decoder is a recursive-descent
    parser of that form (full escape handling, trailing-whitespace
    tolerance as in serde_json::from_str).
-/

namespace KvRs

/-- Error kind, from src/engine.rs (enum KvError). Payloads carried by the
source variants are dropped; only the variant identity matters here. -/
inductive KvError
  | IoErr
  | SerdeJsonError
  | KeyNotFound
  | DirPathExpected
  | FileMismatchInPath
  | UnexpectedLogFile
  | InvalidIpAddr
  | SledError
  | LockError
deriving DecidableEq, Repr

/-- Log record, from src/kvs_engine.rs (enum LogEntry). -/
inductive LogEntry
  | Set (key value : String)
  | Remove (key : String)
deriving DecidableEq, Repr

/-- Key mentioned by a record. -/
def keyOf : LogEntry → String
  | .Set k _ => k
  | .Remove k => k

/- ------------------------------------------------------------------ -/
/- Record codec: serde_json::to_string / serde_json::from_str          -/
/- ------------------------------------------------------------------ -/

/-- Lowercase hex digit character for a value below 16, as indexing into
serde_json's digit table 0123456789abcdef. -/
def hexDig : Nat → Char
  | 0 => '0'
  | 1 => '1'
  | 2 => '2'
  | 3 => '3'
  | 4 => '4'
  | 5 => '5'
  | 6 => '6'
  | 7 => '7'
  | 8 => '8'
  | 9 => '9'
  | 10 => 'a'
  | 11 => 'b'
  | 12 => 'c'
  | 13 => 'd'
  | 14 => 'e'
  | 15 => 'f'
  | _ => '0'

/-- serde_json escaping of one character inside a JSON string: quote and
backslash are escaped, control characters below 0x20 use the short escapes
b, t, n, f, r where available and otherwise a 4-digit unicode escape;
every other character is emitted verbatim. -/
def escChar (c : Char) : List Char :=
  if c = '"' then ['\\', '"']
  else if c = '\\' then ['\\', '\\']
  else if c.toNat < 32 then
    if c = '\x08' then ['\\', 'b']
    else if c = '\x09' then ['\\', 't']
    else if c = '\x0a' then ['\\', 'n']
    else if c = '\x0c' then ['\\', 'f']
    else if c = '\x0d' then ['\\', 'r']
    else ['\\', 'u', '0', '0', hexDig (c.toNat / 16), hexDig (c.toNat % 16)]
  else [c]

/-- Escape a whole string body. -/
def escape : List Char → List Char
  | [] => []
  | c :: rest => escChar c ++ escape rest

/-- Encoded JSON string: opening quote, escaped body, closing quote. -/
def encodeString (s : List Char) : List Char := '"' :: (escape s ++ ['"'])

/-- Punctuation of the compact serde_json form of a Set record, up to the
key string. -/
def setHead : List Char :=
  ['\x7b', '"', 'S', 'e', 't', '"', ':', '\x7b', '"', 'k', 'e', 'y', '"', ':']

/-- Punctuation between the key string and the value string. -/
def setMid : List Char := [',', '"', 'v', 'a', 'l', 'u', 'e', '"', ':']

/-- Closing punctuation of a Set record. -/
def setTail : List Char := ['\x7d', '\x7d']

/-- Punctuation of the compact serde_json form of a Remove record, up to
the key string. -/
def removeHead : List Char :=
  ['\x7b', '"', 'R', 'e', 'm', 'o', 'v', 'e', '"', ':']

/-- Closing punctuation of a Remove record. -/
def removeTail : List Char := ['\x7d']

/-- serde_json::to_string of a LogEntry (compact, externally tagged). -/
def encodeRecord : LogEntry → List Char
  | .Set k v =>
      setHead ++ encodeString k.toList ++ setMid ++ encodeString v.toList ++ setTail
  | .Remove k => removeHead ++ encodeString k.toList ++ removeTail

/-- One log line as written by set_internal / remove_internal: the encoded
record followed by the pushed newline. -/
def entryLine (e : LogEntry) : List Char := encodeRecord e ++ ['\n']

/-- Value of one hex digit character. -/
def hexVal (c : Char) : Option Nat :=
  if '0' ≤ c ∧ c ≤ '9' then some (c.toNat - 48)
  else if 'a' ≤ c ∧ c ≤ 'f' then some (c.toNat - 87)
  else if 'A' ≤ c ∧ c ≤ 'F' then some (c.toNat - 55)
  else none

/-- Decoding of a single-character JSON escape. -/
def escDecode (e : Char) : Option Char :=
  if e = '"' then some '"'
  else if e = '\\' then some '\\'
  else if e = '/' then some '/'
  else if e = 'b' then some '\x08'
  else if e = 't' then some '\x09'
  else if e = 'n' then some '\x0a'
  else if e = 'f' then some '\x0c'
  else if e = 'r' then some '\x0d'
  else none

/-- Parse the body of a JSON string after the opening quote, returning the
unescaped content and the input remaining after the closing quote. Raw
control characters are rejected, as serde_json does. -/
def parseStringBody : List Char → Option (List Char × List Char)
  | [] => none
  | c :: rest =>
    if c = '"' then some ([], rest)
    else if c = '\\' then
      match rest with
      | [] => none
      | e :: rest2 =>
        if e = 'u' then
          match rest2 with
          | h1 :: h2 :: h3 :: h4 :: rest3 =>
            match hexVal h1, hexVal h2, hexVal h3, hexVal h4 with
            | some a, some b, some c2, some d =>
                (parseStringBody rest3).map fun p =>
                  (Char.ofNat (((a * 16 + b) * 16 + c2) * 16 + d) :: p.1, p.2)
            | _, _, _, _ => none
          | _ => none
        else
          match escDecode e with
          | some d => (parseStringBody rest2).map fun p => (d :: p.1, p.2)
          | none => none
    else if c.toNat < 32 then none
    else (parseStringBody rest).map fun p => (c :: p.1, p.2)

/-- Parse a JSON string including its opening quote. -/
def parseJsonString : List Char → Option (List Char × List Char)
  | '"' :: rest => parseStringBody rest
  | _ => none

/-- Consume an expected literal sequence from the front of the input. -/
def chomp : List Char → List Char → Option (List Char)
  | [], s => some s
  | _ :: _, [] => none
  | p :: ps, c :: cs => if p = c then chomp ps cs else none

/-- Parse one encoded LogEntry, returning the remaining input. -/
def decodeRecord (s : List Char) : Option (LogEntry × List Char) :=
  match chomp setHead s with
  | some r1 =>
    match parseJsonString r1 with
    | some (k, r2) =>
      match chomp setMid r2 with
      | some r3 =>
        match parseJsonString r3 with
        | some (v, r4) =>
          match chomp setTail r4 with
          | some r5 => some (.Set (String.mk k) (String.mk v), r5)
          | none => none
        | none => none
      | none => none
    | none => none
  | none =>
    match chomp removeHead s with
    | some r1 =>
      match parseJsonString r1 with
      | some (k, r2) =>
        match chomp removeTail r2 with
        | some r3 => some (.Remove (String.mk k), r3)
        | none => none
      | none => none
    | none => none

/-- JSON whitespace accepted after the value by serde_json::from_str. -/
def isJsonWs (c : Char) : Bool := c = ' ' || c = '\x09' || c = '\x0a' || c = '\x0d'

/-- serde_json::from_str for LogEntry: parse one value, then require that
only whitespace remains. -/
def fromStr (s : List Char) : Option LogEntry :=
  match decodeRecord s with
  | some (e, rest) => if rest.all isJsonWs then some e else none
  | none => none

/- ------------------------------------------------------------------ -/
/- In-memory index: HashMap<String, u64> as a duplicate-free alist     -/
/- ------------------------------------------------------------------ -/

/-- Association-list model of HashMap<String, u64>. -/
abbrev Index := List (String × Nat)

/-- HashMap::get. -/
def alistLookup : Index → String → Option Nat
  | [], _ => none
  | (k2, v) :: rest, k => if k2 = k then some v else alistLookup rest k

/-- HashMap::remove (drops every binding of the key; inserts keep the list
duplicate-free, so at most one exists). -/
def alistRemove : Index → String → Index
  | [], _ => []
  | (k2, v) :: rest, k =>
      if k2 = k then alistRemove rest k else (k2, v) :: alistRemove rest k

/-- HashMap::insert (replaces any existing binding of the key). -/
def alistInsert (d : Index) (k : String) (v : Nat) : Index :=
  (k, v) :: alistRemove d k

/- ------------------------------------------------------------------ -/
/- Store: src/kvs_engine.rs struct Store and its operations            -/
/- ------------------------------------------------------------------ -/

/-- State of struct Store: the key to offset map, the log file contents,
the engine's current_offset counter, and the file handle's read/write
position (the cursor moved by seek/read_line and by appends). The
dir_path field carries no information the claims touch and is omitted. -/
structure Store where
  data : Index
  log : List Char
  current_offset : Nat
  cursor : Nat
deriving DecidableEq, Repr

/-- BufReader::read_line starting at the front of the given suffix: read
up to and including the first newline, or to end of file. -/
def readLine : List Char → List Char
  | [] => []
  | c :: rest => if c = '\n' then ['\n'] else c :: readLine rest

/-- Seek to an offset and read one line. -/
def read_line_at (log : List Char) (off : Nat) : List Char :=
  readLine (log.drop off)

/-- Store::get_internal: look the key up in the map; on a hit, seek to the
stored offset, read one line, decode it; a Set yields its value, a decoded
non-Set record yields KeyNotFound, a decode failure propagates the
serde_json error. -/
def get_internal (s : Store) (k : String) : Store × Except KvError (Option String) :=
  match alistLookup s.data k with
  | none => (s, .ok none)
  | some off =>
    match fromStr (read_line_at s.log off) with
    | some (.Set _ v) =>
        ({ s with cursor := off + (read_line_at s.log off).length }, .ok (some v))
    | some (.Remove _) =>
        ({ s with cursor := off + (read_line_at s.log off).length }, .error .KeyNotFound)
    | none =>
        ({ s with cursor := off + (read_line_at s.log off).length }, .error .SerdeJsonError)

/-- Store::set_internal: serialize the Set record, push a newline, append
it to the log (the one fallible step, modeled by writeOk), then insert
the pre-append current_offset into the map and advance current_offset by
the appended length. On a failed append the error propagates before the
map or the offset is touched. -/
def set_internal (s : Store) (k v : String) (writeOk : Bool) :
    Store × Except KvError Unit :=
  match writeOk with
  | true =>
    ({ data := alistInsert s.data k s.current_offset,
       log := s.log ++ entryLine (.Set k v),
       current_offset := s.current_offset + (entryLine (.Set k v)).length,
       cursor := s.log.length + (entryLine (.Set k v)).length }, .ok ())
  | false => (s, .error .IoErr)

/-- Store::remove_internal: a miss returns KeyNotFound and writes nothing;
a hit removes the key from the map, appends a Remove record and advances
current_offset by the appended length. -/
def remove_internal (s : Store) (k : String) (writeOk : Bool) :
    Store × Except KvError Unit :=
  match alistLookup s.data k with
  | none => (s, .error .KeyNotFound)
  | some _ =>
    match writeOk with
    | true =>
      ({ data := alistRemove s.data k,
         log := s.log ++ entryLine (.Remove k),
         current_offset := s.current_offset + (entryLine (.Remove k)).length,
         cursor := s.log.length + (entryLine (.Remove k)).length }, .ok ())
    | false => ({ s with data := alistRemove s.data k }, .error .IoErr)

/- ------------------------------------------------------------------ -/
/- Replay: Store::load_data over BufRead::lines                        -/
/- ------------------------------------------------------------------ -/

/-- Rust lines() strips a carriage return that precedes the newline. -/
def stripCR (l : List Char) : List Char :=
  if l.getLast? = some '\x0d' then l.dropLast else l

/-- Worker for splitLines, accumulating the current line reversed. -/
def splitLinesAux : List Char → List Char → List (List Char)
  | [], acc => if acc.isEmpty then [] else [acc.reverse]
  | c :: rest, acc =>
      if c = '\n' then stripCR acc.reverse :: splitLinesAux rest []
      else splitLinesAux rest (c :: acc)

/-- BufRead::lines: split on newlines, stripping the terminator (and a
preceding carriage return); a final unterminated fragment is yielded
as-is, and a trailing newline yields no extra empty line. -/
def splitLines (l : List Char) : List (List Char) := splitLinesAux l []

/-- Loop body of Store::load_data: decode each line; Set inserts the
running offset, Remove deletes; the offset advances by the line length
plus one for the stripped newline. A decode failure aborts the replay. -/
def load_rows : List (List Char) → Index → Nat → Except KvError (Index × Nat)
  | [], d, off => .ok (d, off)
  | row :: rest, d, off =>
    match fromStr row with
    | none => .error .SerdeJsonError
    | some (.Set k _) => load_rows rest (alistInsert d k off) (off + row.length + 1)
    | some (.Remove k) => load_rows rest (alistRemove d k) (off + row.length + 1)

/-- Store::load_data on a log file: replay every line from offset 0. -/
def load_data (log : List Char) : Except KvError (Index × Nat) :=
  load_rows (splitLines log) [] 0

/-- Store::open_internal on an existing log: start from an empty map and
offset 0, then replay. The buffered read leaves the handle at end of
file. -/
def open_store (log : List Char) : Except KvError Store :=
  match load_data log with
  | .ok (d, off) => .ok { data := d, log := log, current_offset := off, cursor := log.length }
  | .error e => .error e

/- ------------------------------------------------------------------ -/
/- Operation sequences producing a directory                           -/
/- ------------------------------------------------------------------ -/

/-- One client mutation. -/
inductive Op
  | set (k v : String)
  | remove (k : String)
deriving DecidableEq, Repr

/-- Run one mutation with a succeeding append, keeping the state (a
remove of an absent key is the no-op the source makes it). -/
def runOp (s : Store) : Op → Store
  | .set k v => (set_internal s k v true).1
  | .remove k => (remove_internal s k true).1

/-- Run a sequence of mutations. -/
def runOps (ops : List Op) (s : Store) : Store := ops.foldl runOp s

/-- The store produced by opening an empty directory. -/
def emptyStore : Store := { data := [], log := [], current_offset := 0, cursor := 0 }

/- ------------------------------------------------------------------ -/
/- Record-list view of a log file                                      -/
/- ------------------------------------------------------------------ -/

/-- The log file holding exactly the given records in order. -/
def encodeAll : List LogEntry → List Char
  | [] => []
  | e :: rest => entryLine e ++ encodeAll rest

/-- Pair each record with its byte offset, starting from the given one. -/
def withOffsets : List LogEntry → Nat → List (LogEntry × Nat)
  | [], _ => []
  | e :: rest, off => (e, off) :: withOffsets rest (off + (entryLine e).length)

/-- Replay effect of one located record on the index. -/
def applyRecord (d : Index) (p : LogEntry × Nat) : Index :=
  match p.1 with
  | .Set k _ => alistInsert d k p.2
  | .Remove k => alistRemove d k

/-- Index obtained by replaying a list of located records. -/
def replayMap (rs : List (LogEntry × Nat)) : Index := rs.foldl applyRecord []

/-- The last located record mentioning the given key, if any. -/
def lastRecord : List (LogEntry × Nat) → String → Option (LogEntry × Nat)
  | [], _ => none
  | p :: rest, k =>
    match lastRecord rest k with
    | some q => some q
    | none => if keyOf p.1 = k then some p else none

/-- A store is the faithful image of a record list: its log encodes the
records, its index is their replay, and its write offset is the log
length. Every store reached from an empty directory by successful
operations has this shape. -/
def GoodStore (s : Store) (rs : List LogEntry) : Prop :=
  s.log = encodeAll rs ∧ s.data = replayMap (withOffsets rs 0) ∧
    s.current_offset = (encodeAll rs).length

/-- Offset invariant: every offset stored in the index is strictly below
current_offset. -/
def OffInv (s : Store) : Prop :=
  ∀ k off, alistLookup s.data k = some off → off < s.current_offset

/- ------------------------------------------------------------------ -/
/- Directory validation: Store::ensure_path                            -/
/- ------------------------------------------------------------------ -/

/-- The constant LOG_FILE. -/
def LOG_FILE : String := "data.log"

/-- Abstract state of the target path: missing, a regular file, or a
directory with the given entry names. -/
inductive FsPath
  | absent
  | file
  | dir (entries : List String)
deriving DecidableEq, Repr

/-- Store::ensure_path: an existing regular file is DirPathExpected; an
existing directory with more than one entry is FileMismatchInPath; with
exactly one entry whose name differs from data.log it is
UnexpectedLogFile; otherwise (absent path, empty directory, or the lone
data.log) the path is created as needed and accepted. -/
def ensure_path (p : FsPath) : Except KvError Unit :=
  match p with
  | .file => .error .DirPathExpected
  | .absent => .ok ()
  | .dir entries =>
    if entries.length > 1 then .error .FileMismatchInPath
    else if entries.length = 1 && entries.headD "" != LOG_FILE then
      .error .UnexpectedLogFile
    else .ok ()

/- ------------------------------------------------------------------ -/
/- Compaction: check_and_do_compaction                                 -/
/- ------------------------------------------------------------------ -/

/-- The constant MAX_FILE_BYTES. -/
def MAX_FILE_BYTES : Nat := 1024 * 1024

/-- Outcome of code that may panic instead of returning. -/
inductive PanicOr (α : Type)
  | panicked
  | val (a : α)
deriving DecidableEq, Repr

/-- Compaction loop over the keys of the source index: read each live
value through the normal point-read path of the source store (whose
cursor moves), write it into the temporary store; a get that returns no
value hits the expect and panics the thread. Returns the final source
and temporary stores. -/
def compactLoop : List String → Store → Store → PanicOr (Except KvError (Store × Store))
  | [], src, tmp => .val (.ok (src, tmp))
  | key :: rest, src, tmp =>
    match get_internal src key with
    | (src2, .ok (some v)) =>
      match set_internal tmp key v true with
      | (tmp2, .ok _) => compactLoop rest src2 tmp2
      | (_, .error e) => .val (.error e)
    | (_, .ok none) => .panicked
    | (_, .error e) => .val (.error e)

/-- Body of check_and_do_compaction once the size threshold has passed:
open a temporary store on data.log.tmp (fresh and empty when no stale
temporary file is present, which is the nominal case modeled here), copy
every live key into it, rename the temporary file over data.log and point
the live handle at it. The source's data and current_offset fields are
left as they were; only the file contents and the handle change. -/
def compactBody (s : Store) : PanicOr (Except KvError Store) :=
  let tmp0 : Store := emptyStore
  match compactLoop (s.data.map (fun p => p.1)) s tmp0 with
  | .panicked => .panicked
  | .val (.error e) => .val (.error e)
  | .val (.ok (src2, tmp2)) =>
    .val (.ok { data := src2.data,
                log := tmp2.log,
                current_offset := src2.current_offset,
                cursor := tmp2.cursor })

/-- check_and_do_compaction: a pass over a log below MAX_FILE_BYTES is a
no-op; otherwise the compaction body runs. -/
def check_and_do_compaction (s : Store) : PanicOr (Except KvError Store) :=
  if s.log.length < MAX_FILE_BYTES then .val (.ok s) else compactBody s

/- ------------------------------------------------------------------ -/
/- Shared-queue thread pool: queue_polling and spawn                   -/
/- ------------------------------------------------------------------ -/

/-- Whether a submitted job runs to completion or panics. -/
inductive JobOutcome
  | ok
  | panics
deriving DecidableEq, Repr

/-- State of one worker and the shared queue: whether the worker thread
is still alive, the queued jobs, and whether the queue mutex is poisoned. -/
structure PoolSt where
  alive : Bool
  queue : List JobOutcome
  poisoned : Bool
deriving DecidableEq, Repr

/-- One iteration of queue_polling for a worker: a dead worker stays dead;
on the termination flag the loop breaks; a poisoned lock takes the Err
branch and merely continues; otherwise the head job is popped and run.
The source invokes job() with no unwind guard and while the MutexGuard is
still live, so a panicking job unwinds queue_polling (the thread dies)
and poisons the mutex. -/
def queue_polling_step (s : PoolSt) (term : Bool) : PoolSt :=
  if !s.alive then s
  else if term then s
  else if s.poisoned then s
  else
    match s.queue with
    | [] => s
    | j :: rest =>
      match j with
      | .ok => { s with queue := rest }
      | .panics => { alive := false, queue := rest, poisoned := true }

/-- SharedQueueThreadPool::spawn: lock the queue with unwrap and push the
job at the tail; on a poisoned mutex the unwrap panics in the caller,
modeled as no resulting state. -/
def pool_spawn (s : PoolSt) (j : JobOutcome) : Option PoolSt :=
  if s.poisoned then none else some { s with queue := s.queue ++ [j] }

/- ------------------------------------------------------------------ -/
/- Codec lemmas                                                        -/
/- ------------------------------------------------------------------ -/

theorem hexVal_hexDig {m : Nat} (h : m < 16) : hexVal (hexDig m) = some m := by
  interval_cases m <;> decide

theorem parseStringBody_lit (c : Char) (t : List Char)
    (h1 : c ≠ '"') (h2 : c ≠ '\\') (h3 : ¬ c.toNat < 32) :
    parseStringBody (c :: t) = (parseStringBody t).map fun p => (c :: p.1, p.2) := by
  rw [parseStringBody.eq_def]
  simp [h1, h2, h3]

theorem parseStringBody_escU (c : Char) (t : List Char) (h : c.toNat < 32) :
    parseStringBody
        ('\\' :: 'u' :: '0' :: '0' :: hexDig (c.toNat / 16) :: hexDig (c.toNat % 16) :: t)
      = (parseStringBody t).map fun p => (c :: p.1, p.2) := by
  have ha : hexVal (hexDig (c.toNat / 16)) = some (c.toNat / 16) :=
    hexVal_hexDig (by omega)
  have hb : hexVal (hexDig (c.toNat % 16)) = some (c.toNat % 16) :=
    hexVal_hexDig (by omega)
  have h0 : hexVal '0' = some 0 := rfl
  rw [parseStringBody.eq_def]
  simp only [h0, ha, hb]
  have hx : Char.ofNat (c.toNat / 16 * 16 + c.toNat % 16) = c := by
    have hn : c.toNat / 16 * 16 + c.toNat % 16 = c.toNat := by omega
    rw [hn, Char.ofNat_toNat]
  simp [hx]

theorem parseStringBody_escChar (c : Char) (t : List Char) :
    parseStringBody (escChar c ++ t) = (parseStringBody t).map fun p => (c :: p.1, p.2) := by
  by_cases hq : c = '"'
  · subst hq
    rw [show escChar '"' = ['\\', '"'] from rfl, parseStringBody.eq_def]
    simp [escDecode]
  by_cases hb : c = '\\'
  · subst hb
    rw [show escChar '\\' = ['\\', '\\'] from rfl, parseStringBody.eq_def]
    simp [escDecode]
  by_cases hc : c.toNat < 32
  · by_cases h8 : c = '\x08'
    · subst h8
      rw [show escChar '\x08' = ['\\', 'b'] from rfl, parseStringBody.eq_def]
      simp [escDecode]
    by_cases h9 : c = '\x09'
    · subst h9
      rw [show escChar '\x09' = ['\\', 't'] from rfl, parseStringBody.eq_def]
      simp [escDecode]
    by_cases ha : c = '\x0a'
    · subst ha
      rw [show escChar '\x0a' = ['\\', 'n'] from rfl, parseStringBody.eq_def]
      simp [escDecode]
    by_cases hcc : c = '\x0c'
    · subst hcc
      rw [show escChar '\x0c' = ['\\', 'f'] from rfl, parseStringBody.eq_def]
      simp [escDecode]
    by_cases hd : c = '\x0d'
    · subst hd
      rw [show escChar '\x0d' = ['\\', 'r'] from rfl, parseStringBody.eq_def]
      simp [escDecode]
    · have hform : escChar c
          = ['\\', 'u', '0', '0', hexDig (c.toNat / 16), hexDig (c.toNat % 16)] := by
        simp [escChar, hq, hb, hc, h8, h9, ha, hcc, hd]
      rw [hform]
      exact parseStringBody_escU c t hc
  · have hform : escChar c = [c] := by simp [escChar, hq, hb, hc]
    rw [hform]
    exact parseStringBody_lit c t hq hb hc

theorem parseStringBody_escape (s t : List Char) :
    parseStringBody (escape s ++ '"' :: t) = some (s, t) := by
  induction s with
  | nil =>
    show parseStringBody ('"' :: t) = _
    rw [parseStringBody.eq_def]
    simp
  | cons c s ih =>
    show parseStringBody (escChar c ++ escape s ++ '"' :: t) = _
    rw [List.append_assoc, parseStringBody_escChar, ih]
    rfl

theorem parseJsonString_encodeString (s t : List Char) :
    parseJsonString (encodeString s ++ t) = some (s, t) := by
  show parseJsonString ('"' :: (escape s ++ ['"'] ++ t)) = _
  rw [List.append_assoc]
  show parseStringBody (escape s ++ '"' :: t) = _
  exact parseStringBody_escape s t

theorem chomp_append (p t : List Char) : chomp p (p ++ t) = some t := by
  induction p with
  | nil => rfl
  | cons c p ih => simp [chomp, ih]

theorem decodeRecord_encode (e : LogEntry) (t : List Char) :
    decodeRecord (encodeRecord e ++ t) = some (e, t) := by
  cases e with
  | Set k v =>
    show decodeRecord
        (setHead ++ encodeString k.toList ++ setMid ++ encodeString v.toList ++ setTail ++ t)
      = _
    unfold decodeRecord
    rw [show setHead ++ encodeString k.toList ++ setMid ++ encodeString v.toList ++ setTail ++ t
          = setHead ++ (encodeString k.toList ++ (setMid ++ (encodeString v.toList ++ (setTail ++ t)))) by
        simp [List.append_assoc]]
    simp only [chomp_append, parseJsonString_encodeString]
    rfl
  | Remove k =>
    show decodeRecord (removeHead ++ encodeString k.toList ++ removeTail ++ t) = _
    unfold decodeRecord
    rw [show removeHead ++ encodeString k.toList ++ removeTail ++ t
          = removeHead ++ (encodeString k.toList ++ (removeTail ++ t)) by
        simp [List.append_assoc]]
    have hne : chomp setHead (removeHead ++ (encodeString k.toList ++ (removeTail ++ t))) = none := by
      rw [show removeHead ++ (encodeString k.toList ++ (removeTail ++ t))
            = '\x7b' :: '"' :: 'R' :: (['e', 'm', 'o', 'v', 'e', '"', ':']
                ++ (encodeString k.toList ++ (removeTail ++ t))) from rfl]
      rw [chomp.eq_def]
      simp [setHead, chomp]
    simp only [hne, chomp_append, parseJsonString_encodeString]
    rfl

theorem fromStr_encode_ws (e : LogEntry) (t : List Char) (ht : t.all isJsonWs) :
    fromStr (encodeRecord e ++ t) = some e := by
  unfold fromStr
  simp [decodeRecord_encode, ht]

theorem fromStr_encode (e : LogEntry) : fromStr (encodeRecord e) = some e := by
  have := fromStr_encode_ws e [] rfl
  simpa using this

theorem fromStr_entryLine (e : LogEntry) : fromStr (entryLine e) = some e :=
  fromStr_encode_ws e ['\n'] rfl

/- ------------------------------------------------------------------ -/
/- The encoded form never contains a raw newline or carriage return    -/
/- ------------------------------------------------------------------ -/

theorem hexDig_ne_nl (n : Nat) : hexDig n ≠ '\n' ∧ hexDig n ≠ '\x0d' := by
  unfold hexDig
  split <;> decide

theorem escChar_ne_nl (c x : Char) (hx : x ∈ escChar c) : x ≠ '\n' ∧ x ≠ '\x0d' := by
  unfold escChar at hx
  split at hx
  · fin_cases hx <;> decide
  split at hx
  · fin_cases hx <;> decide
  split at hx
  · split at hx
    · fin_cases hx <;> decide
    split at hx
    · fin_cases hx <;> decide
    split at hx
    · fin_cases hx <;> decide
    split at hx
    · fin_cases hx <;> decide
    split at hx
    · fin_cases hx <;> decide
    · simp only [List.mem_cons, List.not_mem_nil, or_false] at hx
      rcases hx with rfl | rfl | rfl | rfl | rfl | rfl
      · decide
      · decide
      · decide
      · decide
      · exact hexDig_ne_nl _
      · exact hexDig_ne_nl _
  · simp only [List.mem_cons, List.not_mem_nil, or_false] at hx
    subst hx
    rename_i hq hb hc
    constructor
    · intro h; subst h; exact hc (by decide)
    · intro h; subst h; exact hc (by decide)

theorem escape_ne_nl (s : List Char) (x : Char) (hx : x ∈ escape s) :
    x ≠ '\n' ∧ x ≠ '\x0d' := by
  induction s with
  | nil => cases hx
  | cons c s ih =>
    rcases List.mem_append.mp hx with h | h
    · exact escChar_ne_nl c x h
    · exact ih h

theorem encodeString_ne_nl (s : List Char) (x : Char) (hx : x ∈ encodeString s) :
    x ≠ '\n' ∧ x ≠ '\x0d' := by
  rcases List.mem_cons.mp hx with rfl | h
  · decide
  rcases List.mem_append.mp h with h | h
  · exact escape_ne_nl s x h
  · simp only [List.mem_singleton] at h
    subst h; decide

theorem encodeRecord_ne_nl (e : LogEntry) (x : Char) (hx : x ∈ encodeRecord e) :
    x ≠ '\n' ∧ x ≠ '\x0d' := by
  cases e with
  | Set k v =>
    simp only [encodeRecord, List.mem_append] at hx
    rcases hx with ((((h | h) | h) | h) | h)
    · fin_cases h <;> decide
    · exact encodeString_ne_nl _ x h
    · fin_cases h <;> decide
    · exact encodeString_ne_nl _ x h
    · fin_cases h <;> decide
  | Remove k =>
    simp only [encodeRecord, List.mem_append] at hx
    rcases hx with ((h | h) | h)
    · fin_cases h <;> decide
    · exact encodeString_ne_nl _ x h
    · fin_cases h <;> decide

theorem encodeRecord_no_nl (e : LogEntry) : '\n' ∉ encodeRecord e := by
  intro h
  exact (encodeRecord_ne_nl e '\n' h).1 rfl

/- ------------------------------------------------------------------ -/
/- Line splitting                                                      -/
/- ------------------------------------------------------------------ -/

theorem stripCR_no_cr (l : List Char) (h : ∀ c ∈ l, c ≠ '\x0d') : stripCR l = l := by
  unfold stripCR
  cases hl : l.getLast? with
  | none => simp
  | some a =>
    have ha : a ∈ l := by
      rcases List.getLast?_eq_some_iff.mp hl with ⟨l2, rfl⟩
      exact List.mem_append.mpr (Or.inr (by simp))
    have : a ≠ '\x0d' := h a ha
    simp [this]

theorem splitLinesAux_record (body rest : List Char) (acc : List Char)
    (hb : ∀ c ∈ body, c ≠ '\n') :
    splitLinesAux (body ++ '\n' :: rest) acc
      = stripCR (acc.reverse ++ body) :: splitLinesAux rest [] := by
  induction body generalizing acc with
  | nil => simp [splitLinesAux]
  | cons c body ih =>
    have hc : c ≠ '\n' := hb c (by simp)
    show splitLinesAux (c :: (body ++ '\n' :: rest)) acc = _
    rw [splitLinesAux.eq_def]
    simp only [hc, if_false]
    rw [ih (c :: acc) (fun d hd => hb d (by simp [hd]))]
    simp

theorem splitLines_encodeAll (rs : List LogEntry) :
    splitLines (encodeAll rs) = rs.map encodeRecord := by
  induction rs with
  | nil => rfl
  | cons e rs ih =>
    show splitLines (entryLine e ++ encodeAll rs) = _
    unfold splitLines
    rw [show entryLine e ++ encodeAll rs = encodeRecord e ++ '\n' :: encodeAll rs by
      simp [entryLine]]
    rw [splitLinesAux_record _ _ _ (fun c hc => (encodeRecord_ne_nl e c hc).1)]
    rw [stripCR_no_cr _ (by
      intro c hc
      simp only [List.reverse_nil, List.nil_append] at hc
      exact (encodeRecord_ne_nl e c hc).2)]
    simp only [List.reverse_nil, List.nil_append]
    show encodeRecord e :: splitLines (encodeAll rs) = _
    rw [ih]
    rfl

/- ------------------------------------------------------------------ -/
/- Index lemmas                                                        -/
/- ------------------------------------------------------------------ -/

theorem alistLookup_remove (d : Index) (k k2 : String) :
    alistLookup (alistRemove d k) k2 = if k = k2 then none else alistLookup d k2 := by
  induction d with
  | nil => simp [alistRemove, alistLookup]
  | cons p rest ih =>
    obtain ⟨k3, v3⟩ := p
    by_cases h3 : k3 = k
    · subst h3
      rw [show alistRemove ((k3, v3) :: rest) k3 = alistRemove rest k3 by
            simp [alistRemove]]
      rw [ih]
      by_cases h2 : k3 = k2
      · subst h2
        simp
      · have hcons : alistLookup ((k3, v3) :: rest) k2 = alistLookup rest k2 := by
          simp [alistLookup, h2]
        rw [hcons]
    · rw [show alistRemove ((k3, v3) :: rest) k = (k3, v3) :: alistRemove rest k by
            simp [alistRemove, h3]]
      by_cases h2 : k3 = k2
      · subst h2
        have hk : ¬ k = k3 := fun h => h3 h.symm
        simp [alistLookup, ih, hk]
      · simp [alistLookup, h2, ih]

theorem alistLookup_insert (d : Index) (k k2 : String) (v : Nat) :
    alistLookup (alistInsert d k v) k2 = if k = k2 then some v else alistLookup d k2 := by
  unfold alistInsert
  by_cases h : k = k2
  · subst h; simp [alistLookup]
  · simp [alistLookup, h, alistLookup_remove]

/- ------------------------------------------------------------------ -/
/- Replay lemmas                                                       -/
/- ------------------------------------------------------------------ -/

theorem entryLine_length (e : LogEntry) :
    (entryLine e).length = (encodeRecord e).length + 1 := by
  simp [entryLine]

theorem encodeAll_append (rs : List LogEntry) (e : LogEntry) :
    encodeAll (rs ++ [e]) = encodeAll rs ++ entryLine e := by
  induction rs with
  | nil => simp [encodeAll]
  | cons f rs ih => simp [encodeAll, ih]

theorem withOffsets_append (rs : List LogEntry) (e : LogEntry) (n : Nat) :
    withOffsets (rs ++ [e]) n = withOffsets rs n ++ [(e, n + (encodeAll rs).length)] := by
  induction rs generalizing n with
  | nil => simp [withOffsets, encodeAll]
  | cons f rs ih =>
    show (f, n) :: withOffsets (rs ++ [e]) (n + (entryLine f).length) = _
    rw [ih]
    have : n + (entryLine f).length + (encodeAll rs).length
        = n + (encodeAll (f :: rs)).length := by
      show _ = n + (entryLine f ++ encodeAll rs).length
      simp [Nat.add_assoc]
    rw [this]
    rfl

theorem replayMap_append (rs : List LogEntry) (e : LogEntry) :
    replayMap (withOffsets (rs ++ [e]) 0)
      = applyRecord (replayMap (withOffsets rs 0)) (e, (encodeAll rs).length) := by
  unfold replayMap
  rw [withOffsets_append, List.foldl_append]
  simp

theorem load_rows_encode (rs : List LogEntry) (d : Index) (off : Nat) :
    load_rows (rs.map encodeRecord) d off
      = .ok ((withOffsets rs off).foldl applyRecord d, off + (encodeAll rs).length) := by
  induction rs generalizing d off with
  | nil => simp [load_rows, encodeAll, withOffsets]
  | cons e rs ih =>
    show load_rows (encodeRecord e :: rs.map encodeRecord) d off = _
    rw [load_rows.eq_def]
    simp only [fromStr_encode]
    have hoff : off + (encodeRecord e).length + 1 = off + (entryLine e).length := by
      rw [entryLine_length]; omega
    have hlen : off + (entryLine e).length + (encodeAll rs).length
        = off + (encodeAll (e :: rs)).length := by
      show _ = off + (entryLine e ++ encodeAll rs).length
      simp [Nat.add_assoc]
    cases e with
    | Set k v =>
      show load_rows (rs.map encodeRecord) (alistInsert d k off) _ = _
      rw [ih, hoff, hlen]
      rfl
    | Remove k =>
      show load_rows (rs.map encodeRecord) (alistRemove d k) _ = _
      rw [ih, hoff, hlen]
      rfl

theorem load_data_encodeAll (rs : List LogEntry) :
    load_data (encodeAll rs)
      = .ok (replayMap (withOffsets rs 0), (encodeAll rs).length) := by
  unfold load_data
  rw [splitLines_encodeAll, load_rows_encode]
  simp [replayMap]

/- ------------------------------------------------------------------ -/
/- Stores reached by operation sequences are faithful record images    -/
/- ------------------------------------------------------------------ -/

theorem goodStore_empty : GoodStore emptyStore [] := by
  refine ⟨rfl, rfl, rfl⟩

theorem runOp_good (s : Store) (rs : List LogEntry) (h : GoodStore s rs) (op : Op) :
    ∃ rs2, GoodStore (runOp s op) rs2 := by
  obtain ⟨hlog, hdata, hoff⟩ := h
  cases op with
  | set k v =>
    refine ⟨rs ++ [.Set k v], ?_, ?_, ?_⟩
    · show s.log ++ entryLine (.Set k v) = _
      rw [hlog, encodeAll_append]
    · show alistInsert s.data k s.current_offset = _
      rw [hdata, hoff, replayMap_append]
      rfl
    · show s.current_offset + (entryLine (.Set k v)).length = _
      rw [hoff, encodeAll_append]
      simp
  | remove k =>
    show ∃ rs2, GoodStore (remove_internal s k true).1 rs2
    unfold remove_internal
    cases hl : alistLookup s.data k with
    | none => exact ⟨rs, by simp [hl, GoodStore, hlog, hdata, hoff]⟩
    | some off0 =>
      refine ⟨rs ++ [.Remove k], ?_⟩
      simp only [hl]
      refine ⟨?_, ?_, ?_⟩
      · show s.log ++ entryLine (.Remove k) = _
        rw [hlog, encodeAll_append]
      · show alistRemove s.data k = _
        rw [hdata, replayMap_append]
        rfl
      · show s.current_offset + (entryLine (.Remove k)).length = _
        rw [hoff, encodeAll_append]
        simp

theorem runOps_good (ops : List Op) (s : Store) (rs : List LogEntry)
    (h : GoodStore s rs) : ∃ rs2, GoodStore (runOps ops s) rs2 := by
  induction ops generalizing s rs with
  | nil => exact ⟨rs, h⟩
  | cons op ops ih =>
    obtain ⟨rs2, h2⟩ := runOp_good s rs h op
    exact ih (runOp s op) rs2 h2

/- ------------------------------------------------------------------ -/
/- Last-record characterization of the replayed index                  -/
/- ------------------------------------------------------------------ -/

theorem lastRecord_cons (p : LogEntry × Nat) (rs : List (LogEntry × Nat)) (k : String) :
    lastRecord (p :: rs) k
      = (match lastRecord rs k with
         | some q => some q
         | none => if keyOf p.1 = k then some p else none) := rfl

theorem lastRecord_key (rs : List (LogEntry × Nat)) (k : String) (p : LogEntry × Nat)
    (h : lastRecord rs k = some p) : keyOf p.1 = k := by
  induction rs with
  | nil => cases h
  | cons q rs ih =>
    cases hl : lastRecord rs k with
    | some r =>
      simp only [lastRecord_cons, hl] at h
      cases h
      exact ih hl
    | none =>
      simp only [lastRecord_cons, hl] at h
      by_cases hk : keyOf q.1 = k
      · rw [if_pos hk] at h
        cases h
        exact hk
      · rw [if_neg hk] at h
        cases h

theorem foldl_applyRecord_lookup (rs : List (LogEntry × Nat)) (d : Index) (k : String) :
    alistLookup (rs.foldl applyRecord d) k
      = (match lastRecord rs k with
         | some (.Set _ _, off) => some off
         | some (.Remove _, _) => none
         | none => alistLookup d k) := by
  induction rs generalizing d with
  | nil => rfl
  | cons p rs ih =>
    obtain ⟨e, off⟩ := p
    rw [List.foldl_cons, ih]
    cases hl : lastRecord rs k with
    | some q =>
      have h2 : lastRecord ((e, off) :: rs) k = some q := by
        rw [lastRecord_cons, hl]
      rw [h2]
      obtain ⟨e2, off2⟩ := q
      cases e2 <;> rfl
    | none =>
      have h2 : lastRecord ((e, off) :: rs) k
          = if keyOf e = k then some ((e, off) : LogEntry × Nat) else none := by
        rw [lastRecord_cons, hl]
      rw [h2]
      by_cases hk : keyOf e = k
      · rw [if_pos hk]
        cases e with
        | Set k2 v =>
          show alistLookup (alistInsert d k2 off) k = some off
          rw [alistLookup_insert, if_pos (show k2 = k from hk)]
        | Remove k2 =>
          show alistLookup (alistRemove d k2) k = none
          rw [alistLookup_remove, if_pos (show k2 = k from hk)]
      · rw [if_neg hk]
        cases e with
        | Set k2 v =>
          show alistLookup (alistInsert d k2 off) k = alistLookup d k
          rw [alistLookup_insert, if_neg (show ¬ k2 = k from hk)]
        | Remove k2 =>
          show alistLookup (alistRemove d k2) k = alistLookup d k
          rw [alistLookup_remove, if_neg (show ¬ k2 = k from hk)]

theorem replayMap_lookup_iff (rs : List (LogEntry × Nat)) (k : String) (off : Nat) :
    alistLookup (replayMap rs) k = some off
      ↔ ∃ v, lastRecord rs k = some (.Set k v, off) := by
  unfold replayMap
  rw [foldl_applyRecord_lookup]
  cases hl : lastRecord rs k with
  | none =>
    simp [alistLookup]
  | some p =>
    obtain ⟨e, o⟩ := p
    have hk := lastRecord_key rs k (e, o) hl
    cases e with
    | Set k2 v =>
      have : k2 = k := hk
      subst this
      constructor
      · intro h
        cases h
        exact ⟨v, rfl⟩
      · intro ⟨v2, hv⟩
        cases hv
        rfl
    | Remove k2 =>
      constructor
      · intro h; cases h
      · intro ⟨v2, hv⟩; cases hv

/- ------------------------------------------------------------------ -/
/- Store operation lemmas                                              -/
/- ------------------------------------------------------------------ -/

theorem get_internal_frame (s : Store) (k : String) :
    (get_internal s k).1.data = s.data ∧ (get_internal s k).1.log = s.log ∧
      (get_internal s k).1.current_offset = s.current_offset := by
  unfold get_internal
  cases alistLookup s.data k with
  | none => exact ⟨rfl, rfl, rfl⟩
  | some off =>
    dsimp only
    cases hfs : fromStr (read_line_at s.log off) with
    | none => exact ⟨rfl, rfl, rfl⟩
    | some e => cases e <;> exact ⟨rfl, rfl, rfl⟩

theorem get_internal_eval (s : Store) (k : String) (off : Nat)
    (hlk : alistLookup s.data k = some off) :
    (get_internal s k).2
      = (match fromStr (read_line_at s.log off) with
         | some (.Set _ v) => .ok (some v)
         | some (.Remove _) => .error .KeyNotFound
         | none => .error .SerdeJsonError) := by
  unfold get_internal
  rw [hlk]
  dsimp only
  cases hfs : fromStr (read_line_at s.log off) with
  | none => rfl
  | some e => cases e <;> rfl

theorem get_result_congr (s1 s2 : Store) (k : String)
    (hd : s1.data = s2.data) (hl : s1.log = s2.log) :
    (get_internal s1 k).2 = (get_internal s2 k).2 := by
  unfold get_internal
  rw [hd, hl]
  cases alistLookup s2.data k with
  | none => rfl
  | some off =>
    dsimp only
    cases hfs : fromStr (read_line_at s2.log off) with
    | none => rfl
    | some e => cases e <;> rfl

theorem readLine_append (body rest : List Char) (hb : '\n' ∉ body) :
    readLine (body ++ '\n' :: rest) = body ++ ['\n'] := by
  induction body with
  | nil => simp [readLine]
  | cons c body ih =>
    have hc : ¬ c = '\n' := fun h => hb (h ▸ List.mem_cons_self c body)
    show readLine (c :: (body ++ '\n' :: rest)) = _
    rw [readLine.eq_def]
    simp only [hc, if_false]
    rw [ih (fun h => hb (List.mem_cons_of_mem c h))]
    rfl

theorem read_line_at_append (log : List Char) (e : LogEntry) :
    read_line_at (log ++ entryLine e) log.length = entryLine e := by
  unfold read_line_at
  rw [List.drop_left]
  rw [show entryLine e = encodeRecord e ++ '\n' :: [] from rfl]
  rw [readLine_append _ _ (encodeRecord_no_nl e)]

theorem get_after_set (s : Store) (k v : String)
    (h : s.current_offset = s.log.length) :
    (get_internal (set_internal s k v true).1 k).2 = .ok (some v) := by
  have hlk : alistLookup (set_internal s k v true).1.data k = some s.current_offset := by
    show alistLookup (alistInsert s.data k s.current_offset) k = _
    rw [alistLookup_insert, if_pos rfl]
  rw [get_internal_eval _ _ _ hlk]
  show (match fromStr (read_line_at (s.log ++ entryLine (.Set k v)) s.current_offset) with
        | some (.Set _ v) => (Except.ok (some v) : Except KvError (Option String))
        | some (.Remove _) => .error .KeyNotFound
        | none => .error .SerdeJsonError) = .ok (some v)
  rw [h, read_line_at_append, fromStr_entryLine]

theorem set_offlen (s : Store) (k v : String)
    (h : s.current_offset = s.log.length) :
    (set_internal s k v true).1.current_offset = (set_internal s k v true).1.log.length := by
  show s.current_offset + (entryLine (.Set k v)).length
      = (s.log ++ entryLine (.Set k v)).length
  rw [h, List.length_append]

theorem emptyStore_offlen : emptyStore.current_offset = emptyStore.log.length := rfl

/- ------------------------------------------------------------------ -/
/- Offset invariant lemmas                                             -/
/- ------------------------------------------------------------------ -/

theorem load_rows_cons (row : List Char) (rows : List (List Char)) (d : Index) (off : Nat) :
    load_rows (row :: rows) d off
      = (match fromStr row with
         | none => .error .SerdeJsonError
         | some (.Set k _) => load_rows rows (alistInsert d k off) (off + row.length + 1)
         | some (.Remove k) => load_rows rows (alistRemove d k) (off + row.length + 1)) := rfl

theorem load_rows_OffInv (rows : List (List Char)) (d : Index) (off : Nat)
    (d2 : Index) (off2 : Nat)
    (hrun : load_rows rows d off = .ok (d2, off2))
    (hin : ∀ k o, alistLookup d k = some o → o < off) :
    (∀ k o, alistLookup d2 k = some o → o < off2) ∧ off ≤ off2 := by
  induction rows generalizing d off with
  | nil =>
    cases hrun
    exact ⟨hin, Nat.le_refl _⟩
  | cons row rows ih =>
    rw [load_rows_cons] at hrun
    cases hfs : fromStr row with
    | none => rw [hfs] at hrun; cases hrun
    | some e =>
      rw [hfs] at hrun
      cases e with
      | Set k2 v =>
        have hstep := ih (alistInsert d k2 off) (off + row.length + 1) hrun ?_
        · exact ⟨hstep.1, by omega⟩
        · intro k o hk
          rw [alistLookup_insert] at hk
          by_cases hkk : k2 = k
          · rw [if_pos hkk] at hk
            cases hk
            omega
          · rw [if_neg hkk] at hk
            have := hin k o hk
            omega
      | Remove k2 =>
        have hstep := ih (alistRemove d k2) (off + row.length + 1) hrun ?_
        · exact ⟨hstep.1, by omega⟩
        · intro k o hk
          rw [alistLookup_remove] at hk
          by_cases hkk : k2 = k
          · rw [if_pos hkk] at hk
            cases hk
          · rw [if_neg hkk] at hk
            have := hin k o hk
            omega

theorem open_store_OffInv (log : List Char) (s : Store)
    (h : open_store log = .ok s) : OffInv s := by
  unfold open_store at h
  cases hl : load_data log with
  | error e => rw [hl] at h; cases h
  | ok p =>
    obtain ⟨d, off⟩ := p
    rw [hl] at h
    cases h
    intro k o hk
    exact (load_rows_OffInv (splitLines log) [] 0 d off hl
      (by intro k o h0; cases h0)).1 k o hk

theorem set_OffInv (s : Store) (k v : String) (b : Bool) (h : OffInv s) :
    OffInv (set_internal s k v b).1 ∧
      s.current_offset ≤ (set_internal s k v b).1.current_offset := by
  cases b with
  | false => exact ⟨h, Nat.le_refl _⟩
  | true =>
    constructor
    · intro k2 o hk
      show o < s.current_offset + (entryLine (.Set k v)).length
      have hk2 : alistLookup (alistInsert s.data k s.current_offset) k2 = some o := hk
      rw [alistLookup_insert] at hk2
      by_cases hkk : k = k2
      · rw [if_pos hkk] at hk2
        cases hk2
        rw [entryLine_length]
        omega
      · rw [if_neg hkk] at hk2
        have := h k2 o hk2
        omega
    · show s.current_offset ≤ s.current_offset + (entryLine (.Set k v)).length
      omega

theorem remove_OffInv (s : Store) (k : String) (b : Bool) (h : OffInv s) :
    OffInv (remove_internal s k b).1 ∧
      s.current_offset ≤ (remove_internal s k b).1.current_offset := by
  unfold remove_internal
  cases hlk : alistLookup s.data k with
  | none => exact ⟨h, Nat.le_refl _⟩
  | some off =>
    dsimp only
    cases b with
    | false =>
      refine ⟨?_, Nat.le_refl _⟩
      intro k2 o hk
      have hk2 : alistLookup (alistRemove s.data k) k2 = some o := hk
      rw [alistLookup_remove] at hk2
      by_cases hkk : k = k2
      · rw [if_pos hkk] at hk2; cases hk2
      · rw [if_neg hkk] at hk2
        exact h k2 o hk2
    | true =>
      constructor
      · intro k2 o hk
        show o < s.current_offset + (entryLine (.Remove k)).length
        have hk2 : alistLookup (alistRemove s.data k) k2 = some o := hk
        rw [alistLookup_remove] at hk2
        by_cases hkk : k = k2
        · rw [if_pos hkk] at hk2; cases hk2
        · rw [if_neg hkk] at hk2
          have := h k2 o hk2
          omega
      · show s.current_offset ≤ s.current_offset + (entryLine (.Remove k)).length
        omega

theorem get_OffInv (s : Store) (k : String) (h : OffInv s) :
    OffInv (get_internal s k).1 ∧
      s.current_offset ≤ (get_internal s k).1.current_offset := by
  obtain ⟨hd, _, hoff⟩ := get_internal_frame s k
  constructor
  · intro k2 o hk
    rw [hd] at hk
    rw [hoff]
    exact h k2 o hk
  · rw [hoff]

theorem remove_internal_miss (s : Store) (k : String) (b : Bool)
    (h : alistLookup s.data k = none) :
    remove_internal s k b = (s, .error .KeyNotFound) := by
  unfold remove_internal
  rw [h]

theorem remove_internal_hit (s : Store) (k : String) (off : Nat)
    (h : alistLookup s.data k = some off) :
    remove_internal s k true
      = ({ data := alistRemove s.data k,
           log := s.log ++ entryLine (.Remove k),
           current_offset := s.current_offset + (entryLine (.Remove k)).length,
           cursor := s.log.length + (entryLine (.Remove k)).length }, .ok ()) := by
  unfold remove_internal
  rw [h]

theorem get_internal_miss (s : Store) (k : String)
    (h : alistLookup s.data k = none) :
    get_internal s k = (s, .ok none) := by
  unfold get_internal
  rw [h]

/- ------------------------------------------------------------------ -/
/- Claim theorems                                                      -/
/- ------------------------------------------------------------------ -/

/-- C1: the spec claims that after a compaction pass gets are unchanged,
the in-memory index is replaced with the freshly built one, and
current_offset equals the new file's length. The code violates all
three: check_and_do_compaction only swaps the file handle, leaving
guard.data and guard.current_offset untouched (kvs_engine.rs:295).
Evaluated at the store produced by set(a,1); set(a,2): before the pass
get(a) is ok(some 2); the compaction body (the code path taken whenever
the log is at least MAX_FILE_BYTES, per the first conjunct) keeps the
old index entry a maps-to 32 and old offset 64 while shrinking the log to
one 32-character record, so get(a) afterwards fails with the serde_json
error and current_offset differs from the new file length. -/
theorem claim_C1_compaction_bug :
    check_and_do_compaction
        = (fun s => if s.log.length < MAX_FILE_BYTES then .val (.ok s) else compactBody s) ∧
    (get_internal (runOps [.set "a" "1", .set "a" "2"] emptyStore) "a").2 = .ok (some "2") ∧
    compactBody (runOps [.set "a" "1", .set "a" "2"] emptyStore)
      = .val (.ok { data := [("a", 32)],
                    log := entryLine (.Set "a" "2"),
                    current_offset := 64,
                    cursor := 32 }) ∧
    (get_internal { data := [("a", 32)],
                    log := entryLine (.Set "a" "2"),
                    current_offset := 64,
                    cursor := 32 } "a").2 = .error .SerdeJsonError ∧
    (entryLine (.Set "a" "2")).length ≠ 64 :=
  ⟨rfl, rfl, rfl, rfl, by decide⟩

/-- C2: re-opening the directory produced by any sequence of successful
set/remove operations replays the log from offset 0: afterwards
current_offset equals the log length, the index is exactly the set of
keys whose last mentioning record (among the records rs with the log
equal to their encoding) is a Set, each at that record's offset, and
every get returns the same result as before the close. -/
theorem claim_C2_reopen_replay (ops : List Op) :
    ∃ rs : List LogEntry,
      (runOps ops emptyStore).log = encodeAll rs ∧
      open_store (runOps ops emptyStore).log
        = .ok { data := (runOps ops emptyStore).data,
                log := (runOps ops emptyStore).log,
                current_offset := (runOps ops emptyStore).log.length,
                cursor := (runOps ops emptyStore).log.length } ∧
      (runOps ops emptyStore).current_offset = (runOps ops emptyStore).log.length ∧
      (∀ k off, alistLookup (runOps ops emptyStore).data k = some off
         ↔ ∃ v, lastRecord (withOffsets rs 0) k = some (.Set k v, off)) ∧
      (∀ r, open_store (runOps ops emptyStore).log = .ok r
         → ∀ k, (get_internal r k).2 = (get_internal (runOps ops emptyStore) k).2) := by
  obtain ⟨rs, hlog, hdata, hoff⟩ := runOps_good ops emptyStore [] goodStore_empty
  have hopen : open_store (runOps ops emptyStore).log
      = .ok { data := (runOps ops emptyStore).data,
              log := (runOps ops emptyStore).log,
              current_offset := (runOps ops emptyStore).log.length,
              cursor := (runOps ops emptyStore).log.length } := by
    unfold open_store
    rw [hlog, load_data_encodeAll, hdata]
  refine ⟨rs, hlog, hopen, ?_, ?_, ?_⟩
  · rw [hoff, hlog]
  · intro k off
    rw [hdata]
    exact replayMap_lookup_iff (withOffsets rs 0) k off
  · intro r hr k
    rw [hopen] at hr
    cases hr
    exact get_result_congr _ _ k rfl rfl

/-- C2 witness at a concrete operation sequence. -/
theorem claim_C2_witness :
    ∃ rs : List LogEntry,
      (runOps [Op.set "a" "1", Op.set "a" "2", Op.remove "a", Op.set "b" "3"] emptyStore).log
          = encodeAll rs ∧
      open_store (runOps [Op.set "a" "1", Op.set "a" "2", Op.remove "a", Op.set "b" "3"]
            emptyStore).log
        = .ok { data := (runOps [Op.set "a" "1", Op.set "a" "2", Op.remove "a", Op.set "b" "3"]
                  emptyStore).data,
                log := (runOps [Op.set "a" "1", Op.set "a" "2", Op.remove "a", Op.set "b" "3"]
                  emptyStore).log,
                current_offset := (runOps [Op.set "a" "1", Op.set "a" "2", Op.remove "a",
                  Op.set "b" "3"] emptyStore).log.length,
                cursor := (runOps [Op.set "a" "1", Op.set "a" "2", Op.remove "a", Op.set "b" "3"]
                  emptyStore).log.length } ∧
      (runOps [Op.set "a" "1", Op.set "a" "2", Op.remove "a", Op.set "b" "3"]
            emptyStore).current_offset
        = (runOps [Op.set "a" "1", Op.set "a" "2", Op.remove "a", Op.set "b" "3"]
            emptyStore).log.length ∧
      (∀ k off, alistLookup (runOps [Op.set "a" "1", Op.set "a" "2", Op.remove "a",
            Op.set "b" "3"] emptyStore).data k = some off
         ↔ ∃ v, lastRecord (withOffsets rs 0) k = some (.Set k v, off)) ∧
      (∀ r, open_store (runOps [Op.set "a" "1", Op.set "a" "2", Op.remove "a", Op.set "b" "3"]
            emptyStore).log = .ok r
         → ∀ k, (get_internal r k).2
             = (get_internal (runOps [Op.set "a" "1", Op.set "a" "2", Op.remove "a",
                 Op.set "b" "3"] emptyStore) k).2) :=
  claim_C2_reopen_replay [Op.set "a" "1", Op.set "a" "2", Op.remove "a", Op.set "b" "3"]

/-- C3: a successful set appends one encoded Set record and then updates
the index, so an immediate get of the same key returns the value; a
second set of the same key wins; and a failed append returns the I/O
error with the whole store (in particular the in-memory map) unchanged.
The hypothesis is the reachable-state invariant that current_offset is
the log length. -/
theorem claim_C3_set_semantics (s : Store) (k v v2 : String)
    (h : s.current_offset = s.log.length) :
    (set_internal s k v true).2 = .ok () ∧
    (set_internal s k v true).1.log = s.log ++ entryLine (.Set k v) ∧
    (set_internal s k v true).1.data = alistInsert s.data k s.current_offset ∧
    (get_internal (set_internal s k v true).1 k).2 = .ok (some v) ∧
    (get_internal (set_internal (set_internal s k v true).1 k v2 true).1 k).2
      = .ok (some v2) ∧
    set_internal s k v false = (s, .error .IoErr) :=
  ⟨rfl, rfl, rfl, get_after_set s k v h,
    get_after_set _ k v2 (set_offlen s k v h), rfl⟩

/-- C3 witness at the empty store. -/
theorem claim_C3_witness :
    (set_internal emptyStore "a" "1" true).2 = .ok () ∧
    (set_internal emptyStore "a" "1" true).1.log = emptyStore.log ++ entryLine (.Set "a" "1") ∧
    (set_internal emptyStore "a" "1" true).1.data
      = alistInsert emptyStore.data "a" emptyStore.current_offset ∧
    (get_internal (set_internal emptyStore "a" "1" true).1 "a").2 = .ok (some "1") ∧
    (get_internal (set_internal (set_internal emptyStore "a" "1" true).1 "a" "2" true).1 "a").2
      = .ok (some "2") ∧
    set_internal emptyStore "a" "1" false = (emptyStore, .error .IoErr) :=
  claim_C3_set_semantics emptyStore "a" "1" "2" rfl

/-- C4: removing an absent key returns KeyNotFound and leaves the store
untouched; removing a present key deletes it from the map, appends a
Remove record, strictly advances current_offset and succeeds, after
which a get of the key returns none and a second remove returns
KeyNotFound. -/
theorem claim_C4_remove_semantics (s : Store) (k : String) :
    (alistLookup s.data k = none →
       ∀ b, remove_internal s k b = (s, .error .KeyNotFound)) ∧
    (∀ off, alistLookup s.data k = some off →
       (remove_internal s k true).2 = .ok () ∧
       (remove_internal s k true).1.data = alistRemove s.data k ∧
       (remove_internal s k true).1.log = s.log ++ entryLine (.Remove k) ∧
       (remove_internal s k true).1.current_offset
         = s.current_offset + (entryLine (.Remove k)).length ∧
       s.current_offset < (remove_internal s k true).1.current_offset ∧
       (get_internal (remove_internal s k true).1 k).2 = .ok none ∧
       (remove_internal (remove_internal s k true).1 k true).2 = .error .KeyNotFound) := by
  constructor
  · intro hnone b
    exact remove_internal_miss s k b hnone
  · intro off hsome
    have hhit := remove_internal_hit s k off hsome
    have hlk2 : alistLookup (remove_internal s k true).1.data k = none := by
      rw [hhit]
      show alistLookup (alistRemove s.data k) k = none
      rw [alistLookup_remove, if_pos rfl]
    refine ⟨by rw [hhit], by rw [hhit], by rw [hhit], by rw [hhit], ?_, ?_, ?_⟩
    · rw [hhit]
      show s.current_offset < s.current_offset + (entryLine (.Remove k)).length
      rw [entryLine_length]
      omega
    · rw [get_internal_miss _ _ hlk2]
    · rw [remove_internal_miss _ _ true hlk2]

/-- C4 witness: set a key, remove it twice. -/
theorem claim_C4_witness :
    (remove_internal (set_internal emptyStore "a" "1" true).1 "a" true).2 = .ok () ∧
    (get_internal
        (remove_internal (set_internal emptyStore "a" "1" true).1 "a" true).1 "a").2
      = .ok none ∧
    (remove_internal
        (remove_internal (set_internal emptyStore "a" "1" true).1 "a" true).1 "a" true).2
      = .error .KeyNotFound ∧
    remove_internal emptyStore "a" true = (emptyStore, .error .KeyNotFound) :=
  ⟨((claim_C4_remove_semantics (set_internal emptyStore "a" "1" true).1 "a").2 0 rfl).1,
   ((claim_C4_remove_semantics (set_internal emptyStore "a" "1" true).1 "a").2 0 rfl).2.2.2.2.2.1,
   ((claim_C4_remove_semantics (set_internal emptyStore "a" "1" true).1 "a").2 0 rfl).2.2.2.2.2.2,
   (claim_C4_remove_semantics emptyStore "a").1 rfl true⟩

/-- C5 counterexample: the claim says a decoded non-Set record at the
stored offset is reported as a Codec failure distinct from KeyNotFound;
at a store whose index maps a to offset 0 of a log holding one Remove
record, the record decodes as Remove (not Set) yet get_internal returns
exactly KeyNotFound (kvs_engine.rs:122's else branch), not the serde_json
Codec error. -/
theorem claim_C5_counterexample :
    fromStr (read_line_at (entryLine (.Remove "a")) 0) = some (.Remove "a") ∧
    (get_internal { data := [("a", 0)],
                    log := entryLine (.Remove "a"),
                    current_offset := (entryLine (.Remove "a")).length,
                    cursor := 0 } "a").2 = .error .KeyNotFound ∧
    KvError.KeyNotFound ≠ KvError.SerdeJsonError :=
  ⟨rfl, rfl, by decide⟩

/-- C5 amended: for a key present in the index, a line at the stored
offset that fails to decode yields the Codec (serde_json) failure, which
is distinct from KeyNotFound; a line that decodes to a Remove record
yields KeyNotFound instead. -/
theorem claim_C5_amended_get_corruption (s : Store) (k : String) (off : Nat)
    (hlk : alistLookup s.data k = some off) :
    (fromStr (read_line_at s.log off) = none →
       (get_internal s k).2 = .error .SerdeJsonError) ∧
    (∀ k2, fromStr (read_line_at s.log off) = some (.Remove k2) →
       (get_internal s k).2 = .error .KeyNotFound) ∧
    KvError.SerdeJsonError ≠ KvError.KeyNotFound := by
  refine ⟨?_, ?_, by decide⟩
  · intro hfs
    rw [get_internal_eval s k off hlk, hfs]
  · intro k2 hfs
    rw [get_internal_eval s k off hlk, hfs]

/-- C5 witness: an index entry over an empty log (decode failure) and one
over a Remove record. -/
theorem claim_C5_witness :
    (get_internal { data := [("a", 0)], log := [],
                    current_offset := 0, cursor := 0 } "a").2 = .error .SerdeJsonError ∧
    (get_internal { data := [("a", 0)],
                    log := entryLine (.Remove "a"),
                    current_offset := (entryLine (.Remove "a")).length,
                    cursor := 0 } "a").2 = .error .KeyNotFound :=
  ⟨(claim_C5_amended_get_corruption
      { data := [("a", 0)], log := [], current_offset := 0, cursor := 0 } "a" 0 rfl).1 rfl,
   (claim_C5_amended_get_corruption
      { data := [("a", 0)], log := entryLine (.Remove "a"),
        current_offset := (entryLine (.Remove "a")).length, cursor := 0 } "a" 0 rfl).2.1
     "a" rfl⟩

/-- C6: opening a regular file fails with DirPathExpected; an absent
path, an empty directory, or a directory holding only data.log succeeds;
a single entry with any other name fails with UnexpectedLogFile; more
than one entry fails with the unexpected-files error (the source names
this variant FileMismatchInPath; the spec calls it
UnexpectedFilesInPath). -/
theorem claim_C6_ensure_path :
    ensure_path .file = .error .DirPathExpected ∧
    ensure_path .absent = .ok () ∧
    ensure_path (.dir []) = .ok () ∧
    ensure_path (.dir [LOG_FILE]) = .ok () ∧
    (∀ name : String, name ≠ LOG_FILE →
       ensure_path (.dir [name]) = .error .UnexpectedLogFile) ∧
    (∀ entries : List String, entries.length > 1 →
       ensure_path (.dir entries) = .error .FileMismatchInPath) := by
  refine ⟨rfl, rfl, rfl, by simp [ensure_path], ?_, ?_⟩
  · intro name hname
    simp [ensure_path, hname]
  · intro entries hlen
    simp [ensure_path, hlen]

/-- C6 witness: the stray-file and two-entry directories. -/
theorem claim_C6_witness :
    ensure_path (.dir ["foo.txt"]) = .error .UnexpectedLogFile ∧
    ensure_path (.dir ["data.log", "foo.txt"]) = .error .FileMismatchInPath :=
  ⟨claim_C6_ensure_path.2.2.2.2.1 "foo.txt" (by decide),
   claim_C6_ensure_path.2.2.2.2.2 ["data.log", "foo.txt"] (by decide)⟩

/-- C7: the encoded form of every record contains no raw newline before
its single terminating newline (the only newline of the appended line is
the terminator), and decoding the encoding, with or without the
terminator, yields the original record. -/
theorem claim_C7_codec_roundtrip (e : LogEntry) :
    '\n' ∉ encodeRecord e ∧
    fromStr (entryLine e) = some e ∧
    fromStr (encodeRecord e) = some e :=
  ⟨encodeRecord_no_nl e, fromStr_entryLine e, fromStr_encode e⟩

/-- C7 witness at a concrete record whose key and value exercise the
escaping (quote, backslash, newline, and a bare control character). -/
theorem claim_C7_witness :
    '\n' ∉ encodeRecord (.Set "a\n\"x\\" "\x01\x1f") ∧
    fromStr (entryLine (.Set "a\n\"x\\" "\x01\x1f")) = some (.Set "a\n\"x\\" "\x01\x1f") ∧
    fromStr (encodeRecord (.Set "a\n\"x\\" "\x01\x1f")) = some (.Set "a\n\"x\\" "\x01\x1f") :=
  claim_C7_codec_roundtrip (.Set "a\n\"x\\" "\x01\x1f")

/-- C8: the spec claims a panicking job does not terminate the pool and
its worker recovers and returns to polling. In the source, queue_polling
invokes job() with no unwind guard while the queue MutexGuard is still
held (shared_queue_threadpool.rs:31-34, with the TODO at line 32), so a
panicking job unwinds the worker thread (it dies) and poisons the mutex:
afterwards the dead worker never dequeues again, a surviving worker only
hits the Err(poisoned) continue branch without executing jobs, and
spawn's unwrap on the poisoned mutex panics in the submitter. -/
theorem claim_C8_panic_kills_worker :
    queue_polling_step { alive := true, queue := [.panics], poisoned := false } false
      = { alive := false, queue := [], poisoned := true } ∧
    queue_polling_step { alive := false, queue := [.ok], poisoned := true } false
      = { alive := false, queue := [.ok], poisoned := true } ∧
    queue_polling_step { alive := true, queue := [.ok], poisoned := true } false
      = { alive := true, queue := [.ok], poisoned := true } ∧
    pool_spawn { alive := false, queue := [], poisoned := true } .ok = none :=
  ⟨rfl, rfl, rfl, rfl⟩

/-- C9: replay establishes, and set, get and remove preserve, the
invariant that every stored offset is strictly below current_offset, and
none of these operations ever decreases current_offset. -/
theorem claim_C9_offset_invariant :
    (∀ log s, open_store log = .ok s → OffInv s) ∧
    (∀ s k v b, OffInv s → OffInv (set_internal s k v b).1
        ∧ s.current_offset ≤ (set_internal s k v b).1.current_offset) ∧
    (∀ s k b, OffInv s → OffInv (remove_internal s k b).1
        ∧ s.current_offset ≤ (remove_internal s k b).1.current_offset) ∧
    (∀ s k, OffInv s → OffInv (get_internal s k).1
        ∧ s.current_offset ≤ (get_internal s k).1.current_offset) :=
  ⟨open_store_OffInv, set_OffInv, remove_OffInv, get_OffInv⟩

/-- C9 witness: the empty store after open, one set and one get. -/
theorem claim_C9_witness :
    OffInv emptyStore ∧
    OffInv (set_internal emptyStore "a" "1" true).1 ∧
    OffInv (get_internal (set_internal emptyStore "a" "1" true).1 "a").1 :=
  ⟨claim_C9_offset_invariant.1 [] emptyStore rfl,
   (claim_C9_offset_invariant.2.1 emptyStore "a" "1" true
     (claim_C9_offset_invariant.1 [] emptyStore rfl)).1,
   (claim_C9_offset_invariant.2.2.2 (set_internal emptyStore "a" "1" true).1 "a"
     (claim_C9_offset_invariant.2.1 emptyStore "a" "1" true
       (claim_C9_offset_invariant.1 [] emptyStore rfl)).1).1⟩

/-- C10: get leaves the index, current_offset and the log contents
unchanged in every branch (hit, miss, and both error paths); only the
cursor field, the file's read position, may move. -/
theorem claim_C10_get_frame (s : Store) (k : String) :
    (get_internal s k).1.data = s.data ∧
    (get_internal s k).1.log = s.log ∧
    (get_internal s k).1.current_offset = s.current_offset :=
  get_internal_frame s k

end KvRs
